import Mathlib

/-!
Shallow embedding of `linetools/analysis/continuum.py` (QSO continuum fitting).

Numpy float arrays are modelled as `List ℚ`; boolean mask arrays as
`List Bool`.  Python slices `a[i:j]` become `(drop i).take (j - i)`;
`np.searchsorted(a, v)` (side `left`, on a sorted array) becomes
`countP (fun x => x < v)`; `np.median` sorts and takes the middle element
(or the mean of the two middle elements).  The fallible interpolators
(which raise uncaught `IndexError`/`ValueError` in Python when fewer than
two knots remain) return `Option`.
-/

namespace Continuum

set_option maxRecDepth 40000

/-- Python slice `l[i:j]` for a rational array. -/
def slice (l : List ℚ) (i j : ℕ) : List ℚ := (l.drop i).take (j - i)

/-- Python slice `l[i:j]` for a boolean mask array. -/
def sliceB (l : List Bool) (i j : ℕ) : List Bool := (l.drop i).take (j - i)

/-- `f0[~m0]`: the values of `fl` at positions where the parallel mask is false. -/
def unmaskedVals (fl : List ℚ) (m : List Bool) : List ℚ :=
  ((fl.zip m).filter (fun p => !p.2)).map Prod.fst

/-- `np.median`: sort, take the middle element, or the mean of the two middle
elements for even length.  (`np.median` of an empty array is NaN in numpy;
the call sites below only compare the result, and every such comparison is
guarded so that the empty case never influences a decision differently from
numpy's NaN semantics.) -/
def median (l : List ℚ) : ℚ :=
  if l = [] then 0
  else
    let s := l.insertionSort (· ≤ ·)
    let n := l.length
    if n % 2 = 1 then s.getD (n / 2) 0
    else (s.getD (n / 2 - 1) 0 + s.getD (n / 2) 0) / 2

/-- Delete from `l` the positions (counting from `i`) where `keep` is false:
the combined effect of Python's `for i in reversed(idelknot): del l[i]`. -/
def filterIdxAux (keep : ℕ → Bool) : ℕ → List α → List α
  | _, [] => []
  | i, a :: t => if keep i then a :: filterIdxAux keep (i + 1) t else filterIdxAux keep (i + 1) t

/-- Keep exactly the positions of `l` where `keep` is true. -/
def filterIdx (keep : ℕ → Bool) (l : List α) : List α := filterIdxAux keep 0 l

/-- A spline knot `[xpos, ypos, flag]` from the Python knot lists. -/
structure Knot where
  x : ℚ
  y : ℚ
  frozen : Bool
deriving Repr, DecidableEq

/-- A chunk's `(i0, i1)` index pair into the spectrum arrays. -/
abbrev Idx := ℕ × ℕ

/-- `np.interp x xp fp` on an increasing `xp`: piecewise-linear interpolation,
clamped to `fp.head`/`fp.getLast` outside the `xp` range. -/
def npInterp : List ℚ → List ℚ → ℚ → ℚ
  | [], _, _ => 0
  | [_], [], _ => 0
  | [_], f :: _, _ => f
  | _ :: _ :: _, [], _ => 0
  | _ :: _ :: _, [_], _ => 0
  | x1 :: x2 :: xs, f1 :: f2 :: fs, x =>
    if x ≤ x1 then f1
    else if x ≤ x2 then f1 + (x - x1) * (f2 - f1) / (x2 - x1)
    else npInterp (x2 :: xs) (f2 :: fs) x

/-- `linear_co(wa, knots)`: linear interpolation through the knots, with one
synthetic point added at each end extrapolated from the slope of the two
nearest real knots.  With fewer than two knots the Python code raises an
uncaught error (`wavc[1]` / tuple unpacking), modelled as `none`. -/
def linear_co (wa : List ℚ) (knots : List Knot) : Option (List ℚ) :=
  if knots.length < 2 then none
  else
    let wavc := knots.map Knot.x
    let mfl := knots.map Knot.y
    let w0 := wavc.getD 0 0
    let w1 := wavc.getD 1 0
    let wl := wavc.getLastD 0
    let wl2 := wavc.dropLast.getLastD 0
    let m0 := mfl.getD 0 0
    let m1 := mfl.getD 1 0
    let ml := mfl.getLastD 0
    let ml2 := mfl.dropLast.getLastD 0
    let extwavc := (w0 - (w1 - w0)) :: (wavc ++ [wl + (wl - wl2)])
    let extmfl := (m0 - (m1 - m0)) :: (mfl ++ [ml + (ml - ml2)])
    some (wa.map (npInterp extwavc extmfl))

/-- The Akima spline primitive: ordered control points and target wavelengths
in, continuum values out; `none` models a Python exception. -/
abbrev AkimaFn := List (ℚ × ℚ) → List ℚ → Option (List ℚ)

/-- `Akima_co(wa, knots)`: build the spline from the knots' `(x, y)` pairs and
evaluate it on `wa`. -/
def akimaEval (akima : AkimaFn) (wa : List ℚ) (knots : List Knot) : Option (List ℚ) :=
  akima (knots.map (fun k => (k.x, k.y))) wa

/-- Consecutive-point slopes `(y2 - y1) / (x2 - x1)` of a control-point list. -/
def akimaSlopes (pts : List (ℚ × ℚ)) : List ℚ :=
  (pts.zip pts.tail).map (fun p => (p.2.2 - p.1.2) / (p.2.1 - p.1.1))

/-- Slope list extended by two extrapolated slopes at each end, as in the
standard Akima scheme (`m₋₁ = 2m₀ - m₁`, `m₋₂ = 2m₋₁ - m₀`, symmetrically at
the right end). -/
def akimaExtSlopes (ms : List ℚ) : List ℚ :=
  let a := ms.getD 0 0
  let b := ms.getD 1 a
  let al := ms.getLastD 0
  let bl := ms.dropLast.getLastD al
  let mneg1 := 2 * a - b
  let mn := 2 * al - bl
  (2 * mneg1 - a) :: mneg1 :: (ms ++ [mn, 2 * mn - al])

/-- Akima knot derivative `tᵢ` from the extended slope list. -/
def akimaDeriv (ext : List ℚ) (i : ℕ) : ℚ :=
  let w1 := |ext.getD (i + 3) 0 - ext.getD (i + 2) 0|
  let w2 := |ext.getD (i + 1) 0 - ext.getD i 0|
  if w1 + w2 = 0 then (ext.getD (i + 1) 0 + ext.getD (i + 2) 0) / 2
  else (w1 * ext.getD (i + 1) 0 + w2 * ext.getD (i + 2) 0) / (w1 + w2)

/-- Evaluate the Akima piecewise cubic at one target `x` (extrapolating with
the first/last cubic outside the knot range). -/
def akimaEvalAt (pts : List (ℚ × ℚ)) (x : ℚ) : ℚ :=
  let n := pts.length
  let ms := akimaSlopes pts
  let ext := akimaExtSlopes ms
  let cnt := pts.countP (fun p => p.1 ≤ x)
  let j := min (n - 2) (cnt - 1)
  let pj := pts.getD j (0, 0)
  let pj1 := pts.getD (j + 1) (0, 0)
  let mj := ms.getD j 0
  let tj := akimaDeriv ext j
  let tj1 := akimaDeriv ext (j + 1)
  let h := pj1.1 - pj.1
  let s := x - pj.1
  pj.2 + tj * s + (3 * mj - 2 * tj - tj1) * s ^ 2 / h + (tj + tj1 - 2 * mj) * s ^ 3 / h ^ 2

/-- Modelled from the spec: the Akima spline primitive (`AkimaSpline` from
`linetools.analysis.interp`, a source file not available here) is "an external
primitive: given ordered knot x/y values, produces a C¹-continuous
piecewise-cubic interpolant with its own boundary/extrapolation rule; must
support evaluation outside the knot domain".  This executable model implements
the standard Akima construction (weighted-slope knot derivatives, cubic
Hermite segments, end slopes extrapolated linearly); with exactly two control
points it degenerates to the straight line through them.  Fewer than two
points is a Python error, modelled as `none`. -/
def akimaSpec : AkimaFn := fun pts wa =>
  if pts.length < 2 then none else some (wa.map (akimaEvalAt pts))

/-- The empirically fixed rest-frame `(left, right, num)` chunk table of
`make_chunks_qso`. -/
def divTable : List (ℚ × ℚ × ℕ) :=
  [(500, 800, 25), (800, 1190, 25), (1190, 1213, 4), (1213, 1230, 6),
   (1230, 1263, 6), (1263, 1290, 5), (1290, 1340, 5), (1340, 1370, 2),
   (1370, 1410, 5), (1410, 1515, 5), (1515, 1600, 15), (1600, 1800, 8),
   (1800, 1900, 5), (1900, 1940, 5), (1940, 2240, 15), (2240, 3000, 25),
   (3000, 6000, 80), (6000, 20000, 100)]

/-- `np.ceil(num * mult)` stored back into an integer field. -/
def scaleNum (mult : ℚ) (n : ℕ) : ℕ := (Int.ceil ((n : ℚ) * mult)).toNat

/-- `np.linspace(left, right, n + 1)[:-1]`: `n` evenly spaced points from
`left` (inclusive) towards `right` (exclusive). -/
def linspaceDrop (left right : ℚ) (n : ℕ) : List ℚ :=
  (List.range n).map (fun k : ℕ => left + (k : ℚ) * ((right - left) / (n : ℚ)))

/-- The chunk table after the redshift scaling of `left`/`right` and the
multiplier scaling of `num` (rows 0 and 1 — the forest rows — use
`forest_divmult`, the rest use `divmult`). -/
def scaledRows (redshift divmult forest_divmult : ℚ) : List (ℚ × ℚ × ℕ) :=
  divTable.enum.map (fun r =>
    ((1 + redshift) * r.2.1, (1 + redshift) * r.2.2.1,
      scaleNum (if r.1 < 2 then forest_divmult else divmult) r.2.2.2))

/-- The full concatenated edge sequence before clipping to the observed
domain. -/
def qsoEdgesAll (redshift divmult forest_divmult : ℚ) : List ℚ :=
  ((scaledRows redshift divmult forest_divmult).map
    (fun r => linspaceDrop r.1 r.2.1 r.2.2)).flatten

/-- `np.searchsorted(l, v)` with the default side `left`, on a sorted array:
the number of elements smaller than `v`. -/
def searchsorted (l : List ℚ) (v : ℚ) : ℕ := l.countP (fun x => x < v)

/-- `make_chunks_qso(wa, redshift, divmult, forest_divmult)`: generate the
scaled edge table and return the slice `edges[i0:i2]`, where `i0` and `i2` are
the insertion points of `wa[0]` and `wa[-1]`.  (The source also computes the
insertion point `i1` of the scaled Lyman-alpha wavelength `1210*(1+z)` but
never uses it.) -/
def make_chunks_qso (wa : List ℚ) (redshift divmult forest_divmult : ℚ) : List ℚ :=
  let edges := qsoEdgesAll redshift divmult forest_divmult
  let i0 := searchsorted edges (wa.headD 0)
  let i2 := searchsorted edges (wa.getLastD 0)
  (edges.drop i0).take (i2 - i0)

/-- `update_knots(knots, indices, fl, masked)`: for every non-frozen knot, set
its `y` to the median flux of the unmasked pixels of its chunk.  (The Python
code mutates `knots` in place while iterating over `indices`; knots beyond
`indices.length` are untouched.) -/
def update_knots (knots : List Knot) (indices : List Idx) (fl : List ℚ)
    (masked : List Bool) : List Knot :=
  (knots.zip indices).map (fun p =>
    if p.1.frozen then p.1
    else { p.1 with
      y := median (unmaskedVals (slice fl p.2.1 p.2.2) (sliceB masked p.2.1 p.2.2)) })
  ++ knots.drop indices.length

/-- The deletion test of `remove_bad_knots`: every pixel of the chunk is
masked (`np.all` of an empty slice is true), or the chunk's median flux is at
most twice its median error. -/
def badChunk (masked : List Bool) (fl er : List ℚ) (ij : Idx) : Bool :=
  (sliceB masked ij.1 ij.2).all (fun b => b) ||
    decide (median (slice fl ij.1 ij.2) ≤ 2 * median (slice er ij.1 ij.2))

/-- `remove_bad_knots(knots, indices, masked, fl, er)`: delete the same
positions (those whose chunk fails `badChunk`) from both parallel lists. -/
def remove_bad_knots (knots : List Knot) (indices : List Idx) (masked : List Bool)
    (fl er : List ℚ) : List Knot × List Idx :=
  let keep : ℕ → Bool := fun i =>
    match indices.get? i with
    | some ij => !(badChunk masked fl er ij)
    | none => true
  (filterIdx keep knots, filterIdx keep indices)

/-- `chisq_chunk(model, fl, er, masked, indices, knots, chithresh)`: for every
non-frozen knot compute the reduced chi-square of `model` against the
unmasked pixels of its chunk and freeze the knot when it is below
`chithresh`.  A chunk with no unmasked pixel, or with a zero error among its
unmasked pixels, yields NaN/inf in numpy and never freezes; both guards are
made explicit here. -/
def chisq_chunk (model fl er : List ℚ) (masked : List Bool) (indices : List Idx)
    (knots : List Knot) (chithresh : ℚ) : List Knot :=
  (knots.zip indices).map (fun p =>
    if p.1.frozen then p.1
    else
      let m0 := sliceB masked p.2.1 p.2.2
      let f1 := unmaskedVals (slice fl p.2.1 p.2.2) m0
      let e1 := unmaskedVals (slice er p.2.1 p.2.2) m0
      let mod1 := unmaskedVals (slice model p.2.1 p.2.2) m0
      let resid := (mod1.zip (f1.zip e1)).map (fun q => (q.1 - q.2.1) / q.2.2)
      let chisq := (resid.map (fun r => r * r)).sum
      if f1.length ≠ 0 ∧ e1.all (fun e => decide (e ≠ 0)) ∧
          chisq / (f1.length : ℚ) < chithresh then
        { p.1 with frozen := true }
      else p.1)
  ++ knots.drop indices.length

/-- `ind[e0 > 0]`: the positions of one chunk `[i, j)` whose error is
strictly positive. -/
def validPositions (er : List ℚ) (ij : Idx) : List ℕ :=
  (List.range' ij.1 (ij.2 - ij.1)).filter (fun p => decide (0 < er.getD p 0))

/-- The positions force-unmasked for one deficient chunk `[i, j)`:
`ind[e0 > 0][np.argsort(f1)[-minpix:]]`, i.e. the (up to) `minpix`
highest-flux positions among those with positive error.  (`np.argsort`'s
order among equal fluxes is unspecified; the model breaks ties stably.) -/
def forcedPositions (fl er : List ℚ) (minpix : ℕ) (ij : Idx) : List ℕ :=
  let sorted := (validPositions er ij).insertionSort
    (fun p q => fl.getD p 0 ≤ fl.getD q 0)
  sorted.drop (sorted.length - minpix)

/-- One chunk of `unmask`: when fewer than `minpix` pixels of the chunk are
unmasked, clear the mask at the chunk's `forcedPositions`. -/
def unmaskChunk (fl er : List ℚ) (minpix : ℕ) (masked : List Bool) (ij : Idx) :
    List Bool :=
  if (sliceB masked ij.1 ij.2).countP (fun b => !b) < minpix then
    let ind1 := forcedPositions fl er minpix ij
    masked.mapIdx (fun p b => if p ∈ ind1 then false else b)
  else masked

/-- `unmask(masked, indices, wa, fl, er, minpix)`: apply `unmaskChunk` to each
chunk in order, threading the mutated mask. -/
def unmask (masked : List Bool) (indices : List Idx) (fl er : List ℚ)
    (minpix : ℕ) : List Bool :=
  indices.foldl (fun m ij => unmaskChunk fl er minpix m ij) masked

/-- The outlier-masking assignment
`masked[(resid > nsig) & ~masked] = True` with
`resid = (model - fl) / er`: a pixel is masked afterwards iff it was already
masked or its residual strictly exceeds `nsig`. -/
def outlierMask (nsig : ℚ) (model fl er : List ℚ) (masked : List Bool) : List Bool :=
  masked.mapIdx (fun p b =>
    b || decide ((model.getD p 0 - fl.getD p 0) / er.getD p 0 > nsig))

/-- `prepare_knots(wa, fl, er, edges)`: chunk index ranges by sorted search of
the edges in `wa`, knots at chunk midpoints with `y = 0`, initial mask from
non-positive errors, then `remove_bad_knots` and `update_knots`. -/
def prepare_knots (wa fl er : List ℚ) (edges : List ℚ) :
    List Knot × List Idx × List Bool :=
  let pos := edges.map (fun e => searchsorted wa e)
  let indices := pos.zip pos.tail
  let wavc := (edges.zip edges.tail).map (fun p => (p.1 + p.2) / 2)
  let knots := wavc.map (fun x => Knot.mk x 0 false)
  let masked := er.map (fun e => !(decide (0 < e)))
  let pruned := remove_bad_knots knots indices masked fl er
  let knots := update_knots pruned.1 pruned.2 fl masked
  (knots, pruned.2, masked)

/-- The mutable state threaded through the convergence loop (the Python code
mutates `knots` and `masked` in place; `indices` is fixed). -/
structure LoopState where
  knots : List Knot
  masked : List Bool
deriving Repr, DecidableEq

/-- Outcome of one iteration of the `while True` body of
`estimate_continuum`. -/
inductive StepOut
  | success (st : LoopState)
  | next (st : LoopState)
  | interpError
deriving Repr, DecidableEq

/-- One iteration of the `estimate_continuum` loop body, in source order:
knot update, Linear model, Akima model, per-chunk freeze test
(`chithresh = 1`), all-frozen convergence check, outlier masking with the
Linear model, minimum-pixel safety (`minpix = 3`), mask-stability convergence
check. -/
def stepBody (akima : AkimaFn) (wa fl er : List ℚ) (indices : List Idx)
    (nsig : ℚ) (st : LoopState) : StepOut :=
  let knots := update_knots st.knots indices fl st.masked
  match linear_co wa knots with
  | none => .interpError
  | some model =>
    match akimaEval akima wa knots with
    | none => .interpError
    | some model_a =>
      let knots := chisq_chunk model_a fl er st.masked indices knots 1
      if knots.all (fun k => k.frozen) then .success ⟨knots, st.masked⟩
      else
        let m2 := unmask (outlierMask nsig model fl er st.masked) indices fl er 3
        if m2 = st.masked then .success ⟨knots, m2⟩
        else .next ⟨knots, m2⟩

/-- Outcome of the whole loop.  `maxiterError` models
`RuntimeError('Exceeded maximum iterations')`; `interpError` models the
uncaught interpolator exception; `fuelOut` is unreachable for the fuel the
wrapper supplies. -/
inductive LoopOut
  | success (co : List ℚ) (st : LoopState)
  | maxiterError
  | interpError
  | fuelOut
deriving Repr, DecidableEq

/-- The final evaluation after the loop breaks: the Akima model on the final
knots, with non-positive values clipped to zero (`co[co <= 0] = 0`). -/
def finalCo (akima : AkimaFn) (wa : List ℚ) (knots : List Knot) : Option (List ℚ) :=
  (akimaEval akima wa knots).map (List.map (fun v => if v ≤ 0 then 0 else v))

/-- The `while True` loop of `estimate_continuum`, with the iteration counter
`count` carried explicitly: after a non-converged iteration the loop raises
when `count > maxiter` and otherwise repeats with `count + 1`. -/
def estimLoop (akima : AkimaFn) (wa fl er : List ℚ) (indices : List Idx)
    (nsig : ℚ) (maxiter : ℕ) : ℕ → ℕ → LoopState → LoopOut
  | 0, _, _ => .fuelOut
  | fuel + 1, count, st =>
    match stepBody akima wa fl er indices nsig st with
    | .interpError => .interpError
    | .success st' =>
      match finalCo akima wa st'.knots with
      | none => .interpError
      | some co => .success co st'
    | .next st' =>
      if count > maxiter then .maxiterError
      else estimLoop akima wa fl er indices nsig maxiter fuel (count + 1) st'

/-- `estimate_continuum(s, knots, indices, masked, maxiter, nsig)`: run the
loop from `count = 0`.  The fuel `maxiter + 2` is enough for every reachable
iteration (`count` can reach at most `maxiter + 1`). -/
def estimate_continuum (akima : AkimaFn) (wa fl er : List ℚ) (knots : List Knot)
    (indices : List Idx) (masked : List Bool) (maxiter : ℕ) (nsig : ℚ) : LoopOut :=
  estimLoop akima wa fl er indices nsig maxiter (maxiter + 2) 0 ⟨knots, masked⟩

/-- The spectrum argument of `find_continuum`: wavelength, flux, one-sigma
error, and the optional `redshift` entry of its metadata map. -/
structure Spectrum where
  wa : List ℚ
  fl : List ℚ
  er : List ℚ
  metaRedshift : Option ℚ
deriving Repr, DecidableEq

/-- The keyword arguments `find_continuum` may receive.  The Python signature
is `find_continuum(spec, edges=None, ax=None, debug=False, kind='QSO',
**kwargs)`: every keyword beyond the named ones lands in `kwargs`, whether or
not the function reads it. -/
structure Kwargs where
  redshift : Option ℚ
  divmult : Option ℚ
  forest_divmult : Option ℚ
  nsig : Option ℚ
  maxiter : Option ℕ
  minpix : Option ℕ
deriving Repr, DecidableEq

/-- The default keyword arguments: nothing supplied. -/
def Kwargs.none : Kwargs := ⟨Option.none, Option.none, Option.none, Option.none,
  Option.none, Option.none⟩

/-- The Python exception classes that can escape `find_continuum`:
`RuntimeError`, `ValueError`, and the uncaught interpolator `IndexError`. -/
inductive PyError
  | runtimeError (msg : String)
  | valueError (msg : String)
  | indexError
deriving Repr, DecidableEq

/-- Python's `str.upper()` on the `kind` argument (ASCII case folding,
character by character). -/
def pyUpper (s : String) : String := String.mk (s.data.map Char.toUpper)

/-- The tail of `find_continuum` once the edges are known: `prepare_knots`
followed by `estimate_continuum` with the loop defaults `maxiter = 1000`,
`nsig = 1.5` (and `minpix = 3` inside the loop): the Python call sites
forward none of the corresponding keywords. -/
def findContinuumRun (akima : AkimaFn) (spec : Spectrum) (edges : List ℚ) :
    Except PyError (List ℚ × List (ℚ × ℚ)) :=
  match estimate_continuum akima spec.wa spec.fl spec.er
      (prepare_knots spec.wa spec.fl spec.er edges).1
      (prepare_knots spec.wa spec.fl spec.er edges).2.1
      (prepare_knots spec.wa spec.fl spec.er edges).2.2 1000 (3 / 2) with
  | .success co st => .ok (co, st.knots.map (fun k => (k.x, k.y)))
  | .maxiterError => .error (.runtimeError "Exceeded maximum iterations")
  | _ => .error .indexError

/-- `find_continuum(spec, edges, kind, **kwargs)`: resolve the edges (explicit
edges win and make `kind` irrelevant; kind `QSO` needs a redshift from
`kwargs` or the spectrum metadata, any other kind is a `ValueError`), then
run `findContinuumRun`. -/
def find_continuum (akima : AkimaFn) (spec : Spectrum) (edges : Option (List ℚ))
    (kind : String) (kwargs : Kwargs) :
    Except PyError (List ℚ × List (ℚ × ℚ)) :=
  match edges with
  | some e => findContinuumRun akima spec e
  | none =>
    if pyUpper kind = "QSO" then
      match kwargs.redshift <|> spec.metaRedshift with
      | some z =>
        findContinuumRun akima spec (make_chunks_qso spec.wa z
          (kwargs.divmult.getD 2) (kwargs.forest_divmult.getD 2))
      | none => .error (.runtimeError "I need the emission redshift for kind=qso")
    else .error (.valueError "Kind keyword unknown")

theorem find_continuum_some (akima : AkimaFn) (spec : Spectrum) (e : List ℚ)
    (kind : String) (kwargs : Kwargs) :
    find_continuum akima spec (some e) kind kwargs = findContinuumRun akima spec e := rfl

theorem find_continuum_none (akima : AkimaFn) (spec : Spectrum)
    (kind : String) (kwargs : Kwargs) :
    find_continuum akima spec none kind kwargs =
      if pyUpper kind = "QSO" then
        match kwargs.redshift <|> spec.metaRedshift with
        | some z =>
          findContinuumRun akima spec (make_chunks_qso spec.wa z
            (kwargs.divmult.getD 2) (kwargs.forest_divmult.getD 2))
        | none => .error (.runtimeError "I need the emission redshift for kind=qso")
      else .error (.valueError "Kind keyword unknown") := rfl

/-- Equality test for `Except` results, needed to state concrete runs of
`find_continuum`. -/
instance instDecEqExcept [DecidableEq ε] [DecidableEq α] : DecidableEq (Except ε α) :=
  fun a b =>
  match a, b with
  | .ok x, .ok y => if h : x = y then .isTrue (by rw [h]) else .isFalse (by simp [h])
  | .error x, .error y => if h : x = y then .isTrue (by rw [h]) else .isFalse (by simp [h])
  | .ok _, .error _ => .isFalse (by simp)
  | .error _, .ok _ => .isFalse (by simp)

theorem filterIdxAux_length_eq (keep : ℕ → Bool) :
    ∀ (l1 : List α) (l2 : List β) (i : ℕ), l1.length = l2.length →
      (filterIdxAux keep i l1).length = (filterIdxAux keep i l2).length := by
  intro l1
  induction l1 with
  | nil => intro l2 i h; cases l2 with
    | nil => rfl
    | cons b t => simp at h
  | cons a t ih =>
    intro l2 i h
    cases l2 with
    | nil => simp at h
    | cons b t2 =>
      simp only [List.length_cons, Nat.add_right_cancel_iff] at h
      simp only [filterIdxAux]
      cases keep i
      · simpa using ih t2 (i + 1) h
      · simpa using ih t2 (i + 1) h

theorem update_knots_length (knots : List Knot) (indices : List Idx) (fl : List ℚ)
    (masked : List Bool) : (update_knots knots indices fl masked).length = knots.length := by
  simp [update_knots]
  omega

theorem chisq_chunk_length (model fl er : List ℚ) (masked : List Bool)
    (indices : List Idx) (knots : List Knot) (chithresh : ℚ) :
    (chisq_chunk model fl er masked indices knots chithresh).length = knots.length := by
  simp [chisq_chunk]
  omega

theorem update_knots_nil_indices (knots : List Knot) (fl : List ℚ) (m : List Bool) :
    update_knots knots [] fl m = knots := by
  simp [update_knots]

theorem update_knots_cons (a : Knot) (k : List Knot) (ij : Idx) (idx : List Idx)
    (fl : List ℚ) (m : List Bool) :
    update_knots (a :: k) (ij :: idx) fl m =
      (if a.frozen then a
       else { a with y := median (unmaskedVals (slice fl ij.1 ij.2) (sliceB m ij.1 ij.2)) })
        :: update_knots k idx fl m := by
  simp [update_knots]

theorem update_knots_frozen :
    ∀ (k : List Knot) (idx : List Idx) (fl : List ℚ) (m : List Bool) (i : ℕ) (kn : Knot),
      k[i]? = some kn → kn.frozen = true → (update_knots k idx fl m)[i]? = some kn := by
  intro k
  induction k with
  | nil => intro idx fl m i kn h; simp at h
  | cons a t ih =>
    intro idx fl m i kn h hfz
    cases idx with
    | nil => rw [update_knots_nil_indices]; exact h
    | cons ij idxt =>
      rw [update_knots_cons]
      cases i with
      | zero =>
        simp only [List.getElem?_cons_zero, Option.some.injEq] at h
        subst h
        simp [hfz]
      | succ n =>
        simp only [List.getElem?_cons_succ] at h ⊢
        exact ih idxt fl m n kn h hfz

theorem chisq_chunk_nil_indices (model fl er : List ℚ) (masked : List Bool)
    (knots : List Knot) (ct : ℚ) : chisq_chunk model fl er masked [] knots ct = knots := by
  simp [chisq_chunk]

theorem chisq_chunk_cons (model fl er : List ℚ) (masked : List Bool) (a : Knot)
    (k : List Knot) (ij : Idx) (idx : List Idx) (ct : ℚ) :
    chisq_chunk model fl er masked (ij :: idx) (a :: k) ct =
      (if a.frozen then a
       else
         let m0 := sliceB masked ij.1 ij.2
         let f1 := unmaskedVals (slice fl ij.1 ij.2) m0
         let e1 := unmaskedVals (slice er ij.1 ij.2) m0
         let mod1 := unmaskedVals (slice model ij.1 ij.2) m0
         let resid := (mod1.zip (f1.zip e1)).map (fun q => (q.1 - q.2.1) / q.2.2)
         let chisq := (resid.map (fun r => r * r)).sum
         if f1.length ≠ 0 ∧ e1.all (fun e => decide (e ≠ 0)) ∧
             chisq / (f1.length : ℚ) < ct then
           { a with frozen := true }
         else a)
        :: chisq_chunk model fl er masked idx k ct := by
  simp [chisq_chunk]

theorem chisq_chunk_frozen :
    ∀ (k : List Knot) (idx : List Idx) (model fl er : List ℚ) (masked : List Bool)
      (ct : ℚ) (i : ℕ) (kn : Knot),
      k[i]? = some kn → kn.frozen = true →
      (chisq_chunk model fl er masked idx k ct)[i]? = some kn := by
  intro k
  induction k with
  | nil => intro idx model fl er masked ct i kn h; simp at h
  | cons a t ih =>
    intro idx model fl er masked ct i kn h hfz
    cases idx with
    | nil => rw [chisq_chunk_nil_indices]; exact h
    | cons ij idxt =>
      rw [chisq_chunk_cons]
      cases i with
      | zero =>
        simp only [List.getElem?_cons_zero, Option.some.injEq] at h
        subst h
        simp [hfz]
      | succ n =>
        simp only [List.getElem?_cons_succ] at h ⊢
        exact ih idxt model fl er masked ct n kn h hfz

theorem stepBody_knots_preserve (akima : AkimaFn) (wa fl er : List ℚ)
    (indices : List Idx) (nsig : ℚ) (st st' : LoopState)
    (h : stepBody akima wa fl er indices nsig st = .success st' ∨
      stepBody akima wa fl er indices nsig st = .next st') :
    ∀ (i : ℕ) (kn : Knot), st.knots[i]? = some kn → kn.frozen = true →
      st'.knots[i]? = some kn := by
  intro i kn hget hfz
  have hstep : ∀ m2, st'.knots = chisq_chunk m2 fl er st.masked indices
      (update_knots st.knots indices fl st.masked) 1 → st'.knots[i]? = some kn := by
    intro m2 hk
    rw [hk]
    exact chisq_chunk_frozen _ _ _ _ _ _ _ _ _
      (update_knots_frozen _ _ _ _ _ _ hget hfz) hfz
  rcases h with h | h <;>
  · unfold stepBody at h
    simp only [] at h
    split at h
    · simp at h
    · split at h
      · simp at h
      · repeat' split at h
        all_goals cases h
        all_goals exact hstep _ rfl

/-- C9: the knot list and the parallel index-range list are created with equal
length by `prepare_knots`, and `remove_bad_knots` (the only pruning
operation) deletes entries from both lists at the same positions, so equal
length is preserved by every pruning step. -/
theorem C9_knots_indices_equal_length :
    (∀ wa fl er edges, (prepare_knots wa fl er edges).1.length =
      (prepare_knots wa fl er edges).2.1.length) ∧
    (∀ knots indices masked fl er, knots.length = indices.length →
      (remove_bad_knots knots indices masked fl er).1.length =
        (remove_bad_knots knots indices masked fl er).2.length) := by
  constructor
  · intro wa fl er edges
    simp only [prepare_knots, update_knots_length, remove_bad_knots, filterIdx]
    apply filterIdxAux_length_eq
    simp [List.length_zip, List.length_tail]
  · intro knots indices masked fl er h
    simp only [remove_bad_knots, filterIdx]
    exact filterIdxAux_length_eq _ _ _ _ h

/-- Witness for C9 at a concrete pruning input (the single chunk is pruned:
its only pixel is masked). -/
theorem C9_witness :
    (remove_bad_knots [⟨1, 0, false⟩] [(0, 1)] [true] [5] [1]).1.length =
      (remove_bad_knots [⟨1, 0, false⟩] [(0, 1)] [true] [5] [1]).2.length :=
  C9_knots_indices_equal_length.2 [⟨1, 0, false⟩] [(0, 1)] [true] [5] [1] rfl

theorem estimLoop_frozen (akima : AkimaFn) (wa fl er : List ℚ) (indices : List Idx)
    (nsig : ℚ) (maxiter : ℕ) :
    ∀ (fuel count : ℕ) (st : LoopState) (co : List ℚ) (stOut : LoopState),
      estimLoop akima wa fl er indices nsig maxiter fuel count st = .success co stOut →
      ∀ (i : ℕ) (kn : Knot), st.knots[i]? = some kn → kn.frozen = true →
        stOut.knots[i]? = some kn := by
  intro fuel
  induction fuel with
  | zero => intro count st co stOut h; simp [estimLoop] at h
  | succ n ih =>
    intro count st co stOut h i kn hget hfz
    unfold estimLoop at h
    rcases hsb : stepBody akima wa fl er indices nsig st with st' | st' | _ <;>
      rw [hsb] at h <;> simp only [] at h
    · rcases hfc : finalCo akima wa st'.knots with _ | co' <;> rw [hfc] at h
      · simp at h
      · simp only [LoopOut.success.injEq] at h
        rw [← h.2]
        exact stepBody_knots_preserve akima wa fl er indices nsig st st'
          (Or.inl hsb) i kn hget hfz
    · split at h
      · simp at h
      · exact ih (count + 1) st' co stOut h i kn
          (stepBody_knots_preserve akima wa fl er indices nsig st st'
            (Or.inr hsb) i kn hget hfz) hfz
    · simp at h

/-- C7: once a knot is frozen, the rest of the run never touches it: in every
successful run of the convergence loop, any knot that is frozen in the
starting state is still present, bit-identical (same `x`, same `y`, flag
still set), at the same position in the final state.  Both the knot-update
step and the freeze-test step skip frozen knots, and the index-range list is
a fixed parameter the loop never modifies. -/
theorem C7_frozen_knots_persist (akima : AkimaFn) (wa fl er : List ℚ)
    (knots : List Knot) (indices : List Idx) (masked : List Bool)
    (maxiter : ℕ) (nsig : ℚ) (co : List ℚ) (stOut : LoopState)
    (hrun : estimate_continuum akima wa fl er knots indices masked maxiter nsig =
      .success co stOut)
    (i : ℕ) (kn : Knot) (hget : knots[i]? = some kn) (hfz : kn.frozen = true) :
    stOut.knots[i]? = some kn :=
  estimLoop_frozen akima wa fl er indices nsig maxiter (maxiter + 2) 0
    ⟨knots, masked⟩ co stOut hrun i kn hget hfz

unseal Rat.add Rat.mul Rat.sub Rat.inv in
/-- Witness for C7: a concrete run (flat unit flux, one knot frozen at the
start with the off-median value `y = 9`) reaches success with the frozen knot
unchanged. -/
theorem C7_witness :
    estimate_continuum akimaSpec [1, 2, 3, 4, 5, 6, 7, 8] [1, 1, 1, 1, 1, 1, 1, 1]
        [1/10, 1/10, 1/10, 1/10, 1/10, 1/10, 1/10, 1/10]
        [⟨5/2, 9, true⟩, ⟨13/2, 0, false⟩] [(0, 4), (4, 8)]
        [false, false, false, false, false, false, false, false] 1000 (3/2) =
      .success [12, 10, 8, 6, 4, 2, 0, 0]
        ⟨[⟨5/2, 9, true⟩, ⟨13/2, 1, false⟩],
         [true, false, false, false, true, false, false, false]⟩ ∧
    (⟨[⟨5/2, 9, true⟩, ⟨13/2, 1, false⟩],
      [true, false, false, false, true, false, false, false]⟩ : LoopState).knots[0]? =
      some ⟨5/2, 9, true⟩ := by
  have h : estimate_continuum akimaSpec [1, 2, 3, 4, 5, 6, 7, 8] [1, 1, 1, 1, 1, 1, 1, 1]
      [1/10, 1/10, 1/10, 1/10, 1/10, 1/10, 1/10, 1/10]
      [⟨5/2, 9, true⟩, ⟨13/2, 0, false⟩] [(0, 4), (4, 8)]
      [false, false, false, false, false, false, false, false] 1000 (3/2) =
      .success [12, 10, 8, 6, 4, 2, 0, 0]
        ⟨[⟨5/2, 9, true⟩, ⟨13/2, 1, false⟩],
         [true, false, false, false, true, false, false, false]⟩ := by decide
  exact ⟨h, C7_frozen_knots_persist akimaSpec _ _ _ _ _ _ 1000 (3/2) _ _ h 0
    ⟨5/2, 9, true⟩ (by decide) rfl⟩

theorem stepBody_short_knots (akima : AkimaFn) (wa fl er : List ℚ)
    (indices : List Idx) (nsig : ℚ) (st : LoopState)
    (h : st.knots.length < 2) :
    stepBody akima wa fl er indices nsig st = .interpError := by
  have hlen : (update_knots st.knots indices fl st.masked).length < 2 := by
    rw [update_knots_length]; exact h
  have hnone : linear_co wa (update_knots st.knots indices fl st.masked) = none := by
    unfold linear_co
    rw [if_pos hlen]
  unfold stepBody
  simp only []
  rw [hnone]

/-- C10: both interpolators need at least two knots.  `linear_co` (whose
boundary extrapolation reads the two nearest real knots at each end) has no
defined result for a knot list of length below two — the Python call dies
with an uncaught indexing error, modelled as `none` — and it does have a
result for any longer list; consequently a convergence-loop iteration entered
with fewer than two knots (for instance after pruning) cannot complete: the
loop aborts with the uncaught-error outcome. -/
theorem C10_two_knot_precondition :
    (∀ (wa : List ℚ) (knots : List Knot), knots.length < 2 → linear_co wa knots = none) ∧
    (∀ (wa : List ℚ) (knots : List Knot), 2 ≤ knots.length →
      (linear_co wa knots).isSome = true) ∧
    (∀ (akima : AkimaFn) (wa fl er : List ℚ) (indices : List Idx) (nsig : ℚ)
      (maxiter fuel count : ℕ) (st : LoopState), st.knots.length < 2 →
      estimLoop akima wa fl er indices nsig maxiter (fuel + 1) count st = .interpError) := by
  refine ⟨fun wa knots h => ?_, fun wa knots h => ?_, ?_⟩
  · unfold linear_co
    rw [if_pos h]
  · unfold linear_co
    rw [if_neg (by omega)]
    simp only [Option.isSome_some]
  · intro akima wa fl er indices nsig maxiter fuel count st h
    unfold estimLoop
    rw [stepBody_short_knots akima wa fl er indices nsig st h]

/-- Witness for C10: a single-knot list makes `linear_co` fail and aborts the
loop; a two-knot list succeeds. -/
theorem C10_witness :
    linear_co [1, 2] [⟨1, 1, false⟩] = none ∧
    (linear_co [1, 2] [⟨1, 1, false⟩, ⟨2, 2, false⟩]).isSome = true ∧
    estimLoop akimaSpec [1, 2] [1, 1] [1, 1] [(0, 2)] (3/2) 1000 1 0
      ⟨[⟨1, 1, false⟩], [false, false]⟩ = .interpError :=
  ⟨C10_two_knot_precondition.1 [1, 2] [⟨1, 1, false⟩] (by decide),
   C10_two_knot_precondition.2.1 [1, 2] [⟨1, 1, false⟩, ⟨2, 2, false⟩] (by decide),
   C10_two_knot_precondition.2.2 akimaSpec [1, 2] [1, 1] [1, 1] [(0, 2)] (3/2) 1000 0 0
     ⟨[⟨1, 1, false⟩], [false, false]⟩ (by decide)⟩

theorem getD_mapIdx : ∀ (l : List α) (f : ℕ → α → α) (p : ℕ), p < l.length →
    ∀ d, (l.mapIdx f).getD p d = f p (l.getD p d) := by
  intro l
  induction l with
  | nil => intro f p hp; simp at hp
  | cons a t ih =>
    intro f p hp d
    rw [List.mapIdx_cons]
    cases p with
    | zero => simp
    | succ n =>
      simp only [List.getD_cons_succ]
      exact ih (fun i x => f (i + 1) x) n (by simpa using hp) d

/-- C8: the outlier-masking step computes the residual `(model - flux)/error`
per pixel and masks exactly the previously unmasked pixels whose residual
strictly exceeds `nsig`; already-masked pixels stay masked.  Inside the loop
body this step is applied to the Linear model of the freshly updated knots
(not the Akima model), and its output is what the minimum-pixel safety step
receives. -/
theorem C8_outlier_masking :
    (∀ (nsig : ℚ) (model fl er : List ℚ) (masked : List Bool) (p : ℕ),
      p < masked.length →
      ((outlierMask nsig model fl er masked).getD p true = true ↔
        (masked.getD p true = true ∨
          (masked.getD p true = false ∧
            nsig < (model.getD p 0 - fl.getD p 0) / er.getD p 0)))) ∧
    (∀ (akima : AkimaFn) (wa fl er : List ℚ) (indices : List Idx) (nsig : ℚ)
      (st st' : LoopState), stepBody akima wa fl er indices nsig st = .next st' →
      ∃ model, linear_co wa (update_knots st.knots indices fl st.masked) = some model ∧
        st'.masked = unmask (outlierMask nsig model fl er st.masked) indices fl er 3) := by
  constructor
  · intro nsig model fl er masked p hp
    unfold outlierMask
    rw [getD_mapIdx masked _ p hp]
    cases hm : masked.getD p true <;> simp
  · intro akima wa fl er indices nsig st st' h
    unfold stepBody at h
    simp only [] at h
    rcases hlin : linear_co wa (update_knots st.knots indices fl st.masked)
        with _ | model <;> rw [hlin] at h
    · simp at h
    · rcases hak : akimaEval akima wa (update_knots st.knots indices fl st.masked)
          with _ | model_a <;> rw [hak] at h
      · simp at h
      · simp only [] at h
        split at h
        · simp at h
        · split at h
          · simp at h
          · cases h
            exact ⟨model, rfl, rfl⟩

unseal Rat.add Rat.mul Rat.sub Rat.inv in
/-- Witness for C8: a pixel with residual `2 > 1.5` on an unmasked
single-pixel mask, and a concrete loop iteration whose post-masking mask is
exactly the `unmask`-processed `outlierMask` of the Linear model. -/
theorem C8_witness :
    ((outlierMask (3/2) [2] [0] [1] [false]).getD 0 true = true ↔
      (([false] : List Bool).getD 0 true = true ∨
        (([false] : List Bool).getD 0 true = false ∧
          (3/2 : ℚ) < (([2] : List ℚ).getD 0 0 - ([0] : List ℚ).getD 0 0) /
            ([1] : List ℚ).getD 0 0))) ∧
    (∃ model, linear_co [1, 2, 3, 4, 5, 6, 7, 8]
        (update_knots [⟨5/2, 0, false⟩, ⟨13/2, 0, false⟩] [(0, 4), (4, 8)]
          [1, 1, 1, 1, 1, 1, 1, 1/2]
          [false, false, false, false, false, false, false, false]) = some model ∧
      (⟨[⟨5/2, 1, true⟩, ⟨13/2, 1, false⟩],
        [false, false, false, false, false, false, false, true]⟩ : LoopState).masked =
        unmask (outlierMask (3/2) model [1, 1, 1, 1, 1, 1, 1, 1/2]
            [1/10, 1/10, 1/10, 1/10, 1/10, 1/10, 1/10, 1/10]
            [false, false, false, false, false, false, false, false])
          [(0, 4), (4, 8)] [1, 1, 1, 1, 1, 1, 1, 1/2]
          [1/10, 1/10, 1/10, 1/10, 1/10, 1/10, 1/10, 1/10] 3) :=
  ⟨C8_outlier_masking.1 (3/2) [2] [0] [1] [false] 0 (by decide),
   C8_outlier_masking.2 akimaSpec [1, 2, 3, 4, 5, 6, 7, 8] [1, 1, 1, 1, 1, 1, 1, 1/2]
     [1/10, 1/10, 1/10, 1/10, 1/10, 1/10, 1/10, 1/10] [(0, 4), (4, 8)] (3/2)
     ⟨[⟨5/2, 0, false⟩, ⟨13/2, 0, false⟩],
      [false, false, false, false, false, false, false, false]⟩
     ⟨[⟨5/2, 1, true⟩, ⟨13/2, 1, false⟩],
      [false, false, false, false, false, false, false, true]⟩
     (by decide)⟩

/-- C5 (amended): the loop raises the convergence error exactly when a full
iteration ends non-converged with `count > maxiter` (and the error is
terminal — nothing is retried); because both convergence checks precede the
counter check inside the body, a run that converges on the following
iteration still succeeds even when `count` has already reached `maxiter`,
so `maxiter = 0` permits two full iterations. -/
theorem C5_maxiter_check :
    (∀ (akima : AkimaFn) (wa fl er : List ℚ) (indices : List Idx) (nsig : ℚ)
      (maxiter fuel count : ℕ) (st st' : LoopState),
      stepBody akima wa fl er indices nsig st = .next st' → count > maxiter →
      estimLoop akima wa fl er indices nsig maxiter (fuel + 1) count st = .maxiterError) ∧
    (∀ (akima : AkimaFn) (wa fl er : List ℚ) (indices : List Idx) (nsig : ℚ)
      (maxiter fuel count : ℕ) (st st' st'' : LoopState) (co : List ℚ),
      stepBody akima wa fl er indices nsig st = .next st' →
      stepBody akima wa fl er indices nsig st' = .success st'' →
      finalCo akima wa st''.knots = some co → count ≤ maxiter →
      estimLoop akima wa fl er indices nsig maxiter (fuel + 2) count st =
        .success co st'') := by
  constructor
  · intro akima wa fl er indices nsig maxiter fuel count st st' hsb hcnt
    unfold estimLoop
    rw [hsb]
    simp only []
    rw [if_pos hcnt]
  · intro akima wa fl er indices nsig maxiter fuel count st st' st'' co hsb1 hsb2 hfc hcnt
    show estimLoop akima wa fl er indices nsig maxiter (fuel + 1 + 1) count st = _
    unfold estimLoop
    rw [hsb1]
    simp only []
    rw [if_neg (by omega)]
    unfold estimLoop
    rw [hsb2]
    simp only []
    rw [hfc]

unseal Rat.add Rat.mul Rat.sub Rat.inv in
/-- Counterexample for C5: with `maxiter = 0`, a spectrum whose first
iteration does not converge (it masks the low outlier pixel, so at least one
iteration is required) still reaches success on the second iteration instead
of raising the convergence failure. -/
theorem C5_counterexample :
    stepBody akimaSpec [1, 2, 3, 4, 5, 6, 7, 8] [1, 1, 1, 1, 1, 1, 1, 1/2]
        [1/10, 1/10, 1/10, 1/10, 1/10, 1/10, 1/10, 1/10] [(0, 4), (4, 8)] (3/2)
        ⟨[⟨5/2, 0, false⟩, ⟨13/2, 0, false⟩],
         [false, false, false, false, false, false, false, false]⟩ =
      .next ⟨[⟨5/2, 1, true⟩, ⟨13/2, 1, false⟩],
        [false, false, false, false, false, false, false, true]⟩ ∧
    ([false, false, false, false, false, false, false, true] ≠
      [false, false, false, false, false, false, false, false]) ∧
    estimate_continuum akimaSpec [1, 2, 3, 4, 5, 6, 7, 8] [1, 1, 1, 1, 1, 1, 1, 1/2]
        [1/10, 1/10, 1/10, 1/10, 1/10, 1/10, 1/10, 1/10]
        [⟨5/2, 0, false⟩, ⟨13/2, 0, false⟩] [(0, 4), (4, 8)]
        [false, false, false, false, false, false, false, false] 0 (3/2) =
      .success [1, 1, 1, 1, 1, 1, 1, 1]
        ⟨[⟨5/2, 1, true⟩, ⟨13/2, 1, true⟩],
         [false, false, false, false, false, false, false, true]⟩ := by
  refine ⟨by decide, by decide, by decide⟩

unseal Rat.add Rat.mul Rat.sub Rat.inv in
/-- Witness for C5 (amended): the same non-converging iteration raises once
`count > maxiter` (here `count = 1 > 0 = maxiter`), and the two-iteration
convergent run succeeds while `count ≤ maxiter` holds at its start. -/
theorem C5_witness :
    estimLoop akimaSpec [1, 2, 3, 4, 5, 6, 7, 8] [1, 1, 1, 1, 1, 1, 1, 1/2]
        [1/10, 1/10, 1/10, 1/10, 1/10, 1/10, 1/10, 1/10] [(0, 4), (4, 8)] (3/2) 0 5 1
        ⟨[⟨5/2, 0, false⟩, ⟨13/2, 0, false⟩],
         [false, false, false, false, false, false, false, false]⟩ = .maxiterError ∧
    estimLoop akimaSpec [1, 2, 3, 4, 5, 6, 7, 8] [1, 1, 1, 1, 1, 1, 1, 1/2]
        [1/10, 1/10, 1/10, 1/10, 1/10, 1/10, 1/10, 1/10] [(0, 4), (4, 8)] (3/2) 0 6 0
        ⟨[⟨5/2, 0, false⟩, ⟨13/2, 0, false⟩],
         [false, false, false, false, false, false, false, false]⟩ =
      .success [1, 1, 1, 1, 1, 1, 1, 1]
        ⟨[⟨5/2, 1, true⟩, ⟨13/2, 1, true⟩],
         [false, false, false, false, false, false, false, true]⟩ :=
  ⟨C5_maxiter_check.1 akimaSpec _ _ _ _ (3/2) 0 4 1 _
      ⟨[⟨5/2, 1, true⟩, ⟨13/2, 1, false⟩],
       [false, false, false, false, false, false, false, true]⟩ (by decide) (by decide),
   C5_maxiter_check.2 akimaSpec _ _ _ _ (3/2) 0 4 0 _
      ⟨[⟨5/2, 1, true⟩, ⟨13/2, 1, false⟩],
       [false, false, false, false, false, false, false, true]⟩
      ⟨[⟨5/2, 1, true⟩, ⟨13/2, 1, true⟩],
       [false, false, false, false, false, false, false, true]⟩
      [1, 1, 1, 1, 1, 1, 1, 1] (by decide) (by decide) (by decide) (by decide)⟩

theorem estimLoop_final_clip (akima : AkimaFn) (wa fl er : List ℚ)
    (indices : List Idx) (nsig : ℚ) (maxiter : ℕ) :
    ∀ (fuel count : ℕ) (st : LoopState) (co : List ℚ) (stOut : LoopState),
      estimLoop akima wa fl er indices nsig maxiter fuel count st = .success co stOut →
      ∀ ys, akimaEval akima wa stOut.knots = some ys →
        co = ys.map (fun v => if v ≤ 0 then 0 else v) := by
  intro fuel
  induction fuel with
  | zero => intro count st co stOut h; simp [estimLoop] at h
  | succ n ih =>
    intro count st co stOut h ys hak
    unfold estimLoop at h
    rcases hsb : stepBody akima wa fl er indices nsig st with st' | st' | _ <;>
      rw [hsb] at h <;> simp only [] at h
    · rcases hfc : finalCo akima wa st'.knots with _ | co' <;> rw [hfc] at h
      · simp at h
      · simp only [LoopOut.success.injEq] at h
        obtain ⟨h1, h2⟩ := h
        subst h2
        unfold finalCo at hfc
        rw [hak] at hfc
        simp only [Option.map_some', Option.some.injEq] at hfc
        rw [← h1, ← hfc]
    · split at h
      · simp at h
      · exact ih (count + 1) st' co stOut h ys hak
    · simp at h

/-- C4 (amended): for every run of the estimator that returns successfully,
the returned continuum is exactly the Akima interpolator re-evaluated on the
returned knot `(x, y)` list with its non-positive values clipped to zero.
The knots alone therefore regenerate the returned continuum through the
Akima interpolator followed by the clip — but not through the interpolator
alone at pixels where the returned continuum was clipped to zero, where the
re-evaluation reproduces the negative value, not the stored zero. -/
theorem C4_round_trip_with_clip (akima : AkimaFn) (spec : Spectrum)
    (edges : Option (List ℚ)) (kind : String) (kwargs : Kwargs)
    (co : List ℚ) (pts : List (ℚ × ℚ))
    (hrun : find_continuum akima spec edges kind kwargs = .ok (co, pts))
    (ys : List ℚ) (hak : akima pts spec.wa = some ys) :
    co = ys.map (fun v => if v ≤ 0 then 0 else v) := by
  have hcont : ∀ edgesV : List ℚ,
      findContinuumRun akima spec edgesV = .ok (co, pts) →
      co = ys.map (fun v => if v ≤ 0 then 0 else v) := by
    intro edgesV hr
    unfold findContinuumRun at hr
    cases hest : estimate_continuum akima spec.wa spec.fl spec.er
        (prepare_knots spec.wa spec.fl spec.er edgesV).1
        (prepare_knots spec.wa spec.fl spec.er edgesV).2.1
        (prepare_knots spec.wa spec.fl spec.er edgesV).2.2 1000 (3/2) with
    | success co2 st =>
      rw [hest] at hr
      simp only [Except.ok.injEq, Prod.mk.injEq] at hr
      obtain ⟨h1, h2⟩ := hr
      rw [← h1]
      refine estimLoop_final_clip akima spec.wa spec.fl spec.er
        (prepare_knots spec.wa spec.fl spec.er edgesV).2.1 (3/2) 1000
        1002 0 ⟨(prepare_knots spec.wa spec.fl spec.er edgesV).1,
          (prepare_knots spec.wa spec.fl spec.er edgesV).2.2⟩ co2 st hest ys ?_
      unfold akimaEval
      rw [h2]
      exact hak
    | maxiterError => rw [hest] at hr; simp at hr
    | interpError => rw [hest] at hr; simp at hr
    | fuelOut => rw [hest] at hr; simp at hr
  rcases edges with _ | edgesV
  · rw [find_continuum_none] at hrun
    split at hrun
    · split at hrun
      · exact hcont _ hrun
      · simp at hrun
    · simp at hrun
  · rw [find_continuum_some] at hrun
    exact hcont _ hrun

unseal Rat.add Rat.mul Rat.sub Rat.inv in
/-- Counterexample for C4: a successful run whose continuum was clipped at the
last pixel (the Akima model extrapolates to `-7/2 < 0` there).  Re-evaluating
the Akima interpolator alone on the returned knots reproduces `-7/2`, not the
returned `0`, so the returned knots are not sufficient to regenerate the
returned continuum without the clip. -/
theorem C4_counterexample :
    find_continuum akimaSpec ⟨[0, 1, 2, 3, 4, 11], [31, 25, 19, 18, 7, -3],
        [3, 3, 3, 2, 7, 2], none⟩ (some [0, 3, 12]) "QSO" Kwargs.none =
      .ok ([59/2, 53/2, 47/2, 41/2, 35/2, 0], [(3/2, 25), (15/2, 7)]) ∧
    akimaSpec [(3/2, 25), (15/2, 7)] [0, 1, 2, 3, 4, 11] =
      some [59/2, 53/2, 47/2, 41/2, 35/2, -7/2] ∧
    ([59/2, 53/2, 47/2, 41/2, 35/2, 0] : List ℚ).getD 5 0 = 0 ∧
    ([59/2, 53/2, 47/2, 41/2, 35/2, -7/2] : List ℚ).getD 5 0 = -7/2 ∧
    ([59/2, 53/2, 47/2, 41/2, 35/2, -7/2] : List ℚ) ≠
      [59/2, 53/2, 47/2, 41/2, 35/2, 0] := by
  refine ⟨by decide, by decide, by decide, by decide, by decide⟩

unseal Rat.add Rat.mul Rat.sub Rat.inv in
/-- Witness for C4 (amended): on the clipped run, the returned continuum is
exactly the clip of the re-evaluated Akima values. -/
theorem C4_witness :
    ([59/2, 53/2, 47/2, 41/2, 35/2, 0] : List ℚ) =
      ([59/2, 53/2, 47/2, 41/2, 35/2, -7/2] : List ℚ).map
        (fun v => if v ≤ 0 then 0 else v) :=
  C4_round_trip_with_clip akimaSpec ⟨[0, 1, 2, 3, 4, 11], [31, 25, 19, 18, 7, -3],
      [3, 3, 3, 2, 7, 2], none⟩ (some [0, 3, 12]) "QSO" Kwargs.none
    [59/2, 53/2, 47/2, 41/2, 35/2, 0] [(3/2, 25), (15/2, 7)] (by decide)
    [59/2, 53/2, 47/2, 41/2, 35/2, -7/2] (by decide)

/-- C3 (amended): `find_continuum` accepts `nsig`, `maxiter` and `minpix`
keywords (they land in `**kwargs` without error) but never forwards them:
the convergence loop always runs with `nsig = 1.5`, `maxiter = 1000` and
`minpix = 3` (those defaults do exist, on `estimate_continuum` and `unmask`),
so any values supplied by the caller have no effect on the result. -/
theorem C3_options_ignored (akima : AkimaFn) (spec : Spectrum)
    (edges : Option (List ℚ)) (kind : String) (kwargs : Kwargs)
    (r1 : Option ℚ) (r2 r3 : Option ℕ) :
    find_continuum akima spec edges kind
      { kwargs with nsig := r1, maxiter := r2, minpix := r3 } =
    find_continuum akima spec edges kind kwargs := rfl

unseal Rat.add Rat.mul Rat.sub Rat.inv in
/-- Counterexample for C3: supplying `nsig = 1000000`, `maxiter = 0` and
`minpix = 100` changes nothing — the run still masks at threshold `1.5`
(the second knot ends at the masked-fit value `y = 1`; an effective
`nsig = 1000000` would have masked nothing and left it at the chunk median
`3/4`), still iterates twice despite `maxiter = 0`, and still leaves chunks
with only `3` unmasked pixels despite `minpix = 100`. -/
theorem C3_counterexample :
    find_continuum akimaSpec ⟨[1, 2, 3, 4, 5, 6, 7, 8], [1, 1, 1, 1, 1, 1, 2/5, 1/2],
        [1/10, 1/10, 1/10, 1/10, 1/10, 1/10, 1/10, 1/10], none⟩ (some [0, 9/2, 9])
        "QSO" ⟨none, none, none, some 1000000, some 0, some 100⟩ =
      .ok ([1, 1, 1, 1, 1, 1, 1, 1], [(9/4, 1), (27/4, 1)]) ∧
    find_continuum akimaSpec ⟨[1, 2, 3, 4, 5, 6, 7, 8], [1, 1, 1, 1, 1, 1, 2/5, 1/2],
        [1/10, 1/10, 1/10, 1/10, 1/10, 1/10, 1/10, 1/10], none⟩ (some [0, 9/2, 9])
        "QSO" Kwargs.none =
      .ok ([1, 1, 1, 1, 1, 1, 1, 1], [(9/4, 1), (27/4, 1)]) ∧
    median [1, 1, 2/5, 1/2] = 3/4 := by
  refine ⟨by decide, by decide, by decide⟩

/-- C6 (amended): calling the estimator with kind `QSO` (in any casing), no
explicit edges and no redshift in either the keywords or the spectrum
metadata fails before the continuum computation with a `RuntimeError`;
calling it with an unrecognized kind and no explicit edges fails with a
`ValueError` — two different error kinds, not the same kind. -/
theorem C6_config_errors :
    (∀ (akima : AkimaFn) (spec : Spectrum) (kw : Kwargs) (kind : String),
      pyUpper kind = "QSO" → kw.redshift = none → spec.metaRedshift = none →
      find_continuum akima spec none kind kw =
        .error (.runtimeError "I need the emission redshift for kind=qso")) ∧
    (∀ (akima : AkimaFn) (spec : Spectrum) (kw : Kwargs) (kind : String),
      pyUpper kind ≠ "QSO" →
      find_continuum akima spec none kind kw =
        .error (.valueError "Kind keyword unknown")) := by
  constructor
  · intro akima spec kw kind hk hr hm
    rw [find_continuum_none, hk, if_pos rfl, hr, hm]
    rfl
  · intro akima spec kw kind hk
    rw [find_continuum_none, if_neg hk]

unseal Rat.add Rat.mul Rat.sub Rat.inv in
/-- Counterexample for C6: on concrete inputs the two configuration failures
carry different Python exception classes (`RuntimeError` for the missing
redshift vs `ValueError` for the unknown kind), and an unrecognized kind
with explicit edges supplied does not fail at all. -/
theorem C6_counterexample :
    find_continuum akimaSpec ⟨[1, 2], [1, 1], [1, 1], none⟩ none "QSO" Kwargs.none =
      .error (.runtimeError "I need the emission redshift for kind=qso") ∧
    find_continuum akimaSpec ⟨[1, 2], [1, 1], [1, 1], none⟩ none "blah" Kwargs.none =
      .error (.valueError "Kind keyword unknown") ∧
    (PyError.runtimeError "I need the emission redshift for kind=qso" ≠
      PyError.valueError "Kind keyword unknown") ∧
    find_continuum akimaSpec ⟨[1, 2, 3, 4, 5, 6, 7, 8], [1, 1, 1, 1, 1, 1, 2/5, 1/2],
        [1/10, 1/10, 1/10, 1/10, 1/10, 1/10, 1/10, 1/10], none⟩ (some [0, 9/2, 9])
        "blah" ⟨some 1, none, none, none, none, none⟩ =
      .ok ([1, 1, 1, 1, 1, 1, 1, 1], [(9/4, 1), (27/4, 1)]) := by
  refine ⟨by decide, by decide, by decide, by decide⟩

/-- Witness for C6 (amended): the two failure branches at concrete inputs,
with the `QSO` test case using lowercase `qso` to exercise the case folding. -/
theorem C6_witness :
    find_continuum akimaSpec ⟨[5, 6], [2, 2], [1, 1], none⟩ none "qso" Kwargs.none =
      .error (.runtimeError "I need the emission redshift for kind=qso") ∧
    find_continuum akimaSpec ⟨[5, 6], [2, 2], [1, 1], none⟩ none "default" Kwargs.none =
      .error (.valueError "Kind keyword unknown") :=
  ⟨C6_config_errors.1 akimaSpec ⟨[5, 6], [2, 2], [1, 1], none⟩ Kwargs.none "qso"
      (by decide) rfl rfl,
   C6_config_errors.2 akimaSpec ⟨[5, 6], [2, 2], [1, 1], none⟩ Kwargs.none "default"
      (by decide)⟩

theorem unmaskChunk_no_new_mask (fl er : List ℚ) (minpix : ℕ) (masked : List Bool)
    (ij : Idx) (p : ℕ)
    (h : (unmaskChunk fl er minpix masked ij).getD p false = true) :
    masked.getD p false = true := by
  unfold unmaskChunk at h
  split at h
  · by_cases hp : p < masked.length
    · rw [getD_mapIdx masked _ p hp] at h
      split at h
      · simp at h
      · exact h
    · rw [List.getD_eq_default] at h
      · simp at h
      · rw [List.length_mapIdx]
        omega
  · exact h

/-- C2 (amended): when the minimum-pixel safety step finds a chunk with fewer
than `minpix` unmasked pixels it force-unmasks the (up to) `minpix`
highest-flux valid-error pixels of the chunk regardless of their current mask
state, so the chunk afterwards holds at least `min minpix #valid` unmasked
pixels but possibly more than `minpix`; the step never masks a pixel, and a
chunk already at or above `minpix` is left completely unchanged. -/
theorem C2_minpix_safety :
    (∀ (fl er : List ℚ) (minpix : ℕ) (masked : List Bool) (ij : Idx),
      ¬ ((sliceB masked ij.1 ij.2).countP (fun b => !b) < minpix) →
      unmaskChunk fl er minpix masked ij = masked) ∧
    (∀ (fl er : List ℚ) (minpix : ℕ) (masked : List Bool) (indices : List Idx) (p : ℕ),
      (unmask masked indices fl er minpix).getD p false = true →
      masked.getD p false = true) ∧
    (∀ (fl er : List ℚ) (minpix : ℕ) (ij : Idx),
      (forcedPositions fl er minpix ij).length =
        min minpix (validPositions er ij).length ∧
      (forcedPositions fl er minpix ij).Nodup ∧
      (∀ p ∈ forcedPositions fl er minpix ij,
        ij.1 ≤ p ∧ p < ij.1 + (ij.2 - ij.1) ∧ 0 < er.getD p 0)) ∧
    (∀ (fl er : List ℚ) (minpix : ℕ) (masked : List Bool) (ij : Idx) (p : ℕ),
      (sliceB masked ij.1 ij.2).countP (fun b => !b) < minpix →
      p ∈ forcedPositions fl er minpix ij → p < masked.length →
      (unmaskChunk fl er minpix masked ij).getD p false = false) ∧
    (∀ (fl er : List ℚ) (minpix : ℕ) (ij : Idx) (p q : ℕ),
      p ∈ forcedPositions fl er minpix ij →
      q ∈ validPositions er ij → q ∉ forcedPositions fl er minpix ij →
      fl.getD q 0 ≤ fl.getD p 0) := by
  have hmemsorted : ∀ (fl er : List ℚ) (ij : Idx) (p : ℕ),
      p ∈ (validPositions er ij).insertionSort
        (fun p q => fl.getD p 0 ≤ fl.getD q 0) ↔ p ∈ validPositions er ij :=
    fun fl er ij p =>
      (List.perm_insertionSort (fun p q => fl.getD p 0 ≤ fl.getD q 0)
        (validPositions er ij)).mem_iff
  refine ⟨?_, ?_, ?_, ?_, ?_⟩
  · intro fl er minpix masked ij h
    unfold unmaskChunk
    rw [if_neg h]
  · intro fl er minpix masked indices
    induction indices generalizing masked with
    | nil => intro p h; exact h
    | cons ij rest ih =>
      intro p h
      exact unmaskChunk_no_new_mask fl er minpix masked ij p (ih _ p h)
  · intro fl er minpix ij
    have hperm := List.perm_insertionSort
      (fun p q => fl.getD p 0 ≤ fl.getD q 0) (validPositions er ij)
    have hnodup : (validPositions er ij).Nodup :=
      List.Nodup.filter _ (List.nodup_range' _ _)
    refine ⟨?_, ?_, ?_⟩
    · rw [forcedPositions, List.length_drop, hperm.length_eq]
      omega
    · exact ((List.drop_sublist _ _).nodup) (hperm.nodup_iff.mpr hnodup)
    · intro p hp
      have hps : p ∈ validPositions er ij := by
        rw [← hmemsorted fl er ij p]
        exact (List.drop_sublist _ _).mem hp
      rw [validPositions, List.mem_filter] at hps
      obtain ⟨hr, he⟩ := hps
      rw [List.mem_range'_1] at hr
      exact ⟨hr.1, hr.2, by simpa using he⟩
  · intro fl er minpix masked ij p hdef hp hplen
    unfold unmaskChunk
    rw [if_pos hdef, getD_mapIdx masked _ p hplen, if_pos hp]
  · intro fl er minpix ij p q hp hq hnq
    haveI : IsTotal ℕ (fun p q : ℕ => fl.getD p 0 ≤ fl.getD q 0) :=
      ⟨fun a b => le_total _ _⟩
    haveI : IsTrans ℕ (fun p q : ℕ => fl.getD p 0 ≤ fl.getD q 0) :=
      ⟨fun a b c hab hbc => le_trans hab hbc⟩
    have hsorted : ((validPositions er ij).insertionSort
        (fun p q => fl.getD p 0 ≤ fl.getD q 0)).Pairwise
          (fun p q : ℕ => fl.getD p 0 ≤ fl.getD q 0) :=
      List.sorted_insertionSort _ _
    have hqs : q ∈ (validPositions er ij).insertionSort
        (fun p q => fl.getD p 0 ≤ fl.getD q 0) := (hmemsorted fl er ij q).mpr hq
    set s := (validPositions er ij).insertionSort
      (fun p q => fl.getD p 0 ≤ fl.getD q 0) with hs
    have hsplit := List.take_append_drop (s.length - minpix) s
    have hcross := (List.pairwise_append.mp (by rw [hsplit]; exact hsorted)).2.2
    have hqs' : q ∈ s.take (s.length - minpix) ++ s.drop (s.length - minpix) := by
      rw [hsplit]
      exact hqs
    have hqtake : q ∈ s.take (s.length - minpix) := by
      rcases List.mem_append.mp hqs' with h | h
      · exact h
      · exact absurd h hnq
    exact hcross q hqtake p hp

unseal Rat.add Rat.mul Rat.sub Rat.inv in
/-- Counterexample for C2: a chunk of four valid pixels with the two
highest-flux pixels masked and `minpix = 3`.  One unmasking would suffice to
reach three unmasked pixels, but the step unmasks the top three by flux,
leaving the chunk with four unmasked pixels — more than `minpix`, and more
new unmaskings than the deficit required. -/
theorem C2_counterexample :
    unmask [false, false, true, true] [(0, 4)] [1, 2, 10, 11] [1, 1, 1, 1] 3 =
      [false, false, false, false] ∧
    (sliceB (unmask [false, false, true, true] [(0, 4)] [1, 2, 10, 11] [1, 1, 1, 1] 3)
      0 4).countP (fun b => !b) = 4 ∧ (4 ≠ 3) := by
  refine ⟨by decide, by decide, by decide⟩

unseal Rat.add Rat.mul Rat.sub Rat.inv in
/-- Witness for C2 (amended): on the four-pixel chunk, the untouched-chunk
rule, the forced-position bookkeeping, the force-unmask effect and the
highest-flux choice, each at its concrete input. -/
theorem C2_witness :
    unmaskChunk [1, 2, 10, 11] [1, 1, 1, 1] 3 [false, false, false, true] (0, 4) =
      [false, false, false, true] ∧
    ([true] : List Bool).getD 0 false = true ∧
    ((forcedPositions [1, 2, 10, 11] [1, 1, 1, 1] 3 (0, 4)).length =
      min 3 (validPositions [1, 1, 1, 1] (0, 4)).length) ∧
    (unmaskChunk [1, 2, 10, 11] [1, 1, 1, 1] 3 [false, false, true, true] (0, 4)).getD
      3 false = false ∧
    ([1, 2, 10, 11] : List ℚ).getD 0 0 ≤ ([1, 2, 10, 11] : List ℚ).getD 3 0 :=
  ⟨C2_minpix_safety.1 [1, 2, 10, 11] [1, 1, 1, 1] 3 [false, false, false, true] (0, 4)
      (by decide),
   C2_minpix_safety.2.1 [1, 2, 10, 11] [1, 1, 1, 1] 3 [true] [] 0 (by decide),
   (C2_minpix_safety.2.2.1 [1, 2, 10, 11] [1, 1, 1, 1] 3 (0, 4)).1,
   C2_minpix_safety.2.2.2.1 [1, 2, 10, 11] [1, 1, 1, 1] 3 [false, false, true, true]
      (0, 4) 3 (by decide) (by decide) (by decide),
   C2_minpix_safety.2.2.2.2 [1, 2, 10, 11] [1, 1, 1, 1] 3 (0, 4) 3 0 (by decide)
      (by decide) (by decide)⟩

theorem take_searchsorted_lt (v : ℚ) :
    ∀ (l : List ℚ), l.Pairwise (· ≤ ·) →
      ∀ e ∈ l.take (searchsorted l v), e < v := by
  intro l
  induction l with
  | nil => intro _ e he; simp at he
  | cons a t ih =>
    intro hsort e he
    rw [List.pairwise_cons] at hsort
    rw [searchsorted, List.countP_cons] at he
    by_cases ha : a < v
    · rw [if_pos (by simpa using ha)] at he
      rw [List.take_succ_cons] at he
      rcases List.mem_cons.mp he with he | he
      · rw [he]; exact ha
      · exact ih hsort.2 e (by rw [searchsorted]; exact he)
    · have hz : t.countP (fun x => decide (x < v)) = 0 := by
        rw [List.countP_eq_zero]
        intro x hx
        simp only [decide_eq_true_eq]
        intro hxv
        exact ha (lt_of_le_of_lt (hsort.1 x hx) hxv)
      rw [if_neg (by simpa using ha), hz] at he
      simp at he

theorem drop_searchsorted_ge (v : ℚ) :
    ∀ (l : List ℚ), l.Pairwise (· ≤ ·) →
      ∀ e ∈ l.drop (searchsorted l v), v ≤ e := by
  intro l
  induction l with
  | nil => intro _ e he; simp at he
  | cons a t ih =>
    intro hsort e he
    rw [List.pairwise_cons] at hsort
    rw [searchsorted, List.countP_cons] at he
    by_cases ha : a < v
    · rw [if_pos (by simpa using ha)] at he
      rw [List.drop_succ_cons] at he
      exact ih hsort.2 e (by rw [searchsorted]; exact he)
    · have hz : t.countP (fun x => decide (x < v)) = 0 := by
        rw [List.countP_eq_zero]
        intro x hx
        simp only [decide_eq_true_eq]
        intro hxv
        exact ha (lt_of_le_of_lt (hsort.1 x hx) hxv)
      rw [if_neg (by simpa using ha), hz] at he
      simp only [Nat.add_zero, List.drop_zero] at he
      rcases List.mem_cons.mp he with he | he
      · rw [he]; exact not_lt.mp ha
      · exact le_trans (not_lt.mp ha) (hsort.1 e he)

theorem linspaceDrop_mem_bounds (left right : ℚ) (n : ℕ) (hn : 1 ≤ n)
    (hlr : left < right) : ∀ e ∈ linspaceDrop left right n, left ≤ e ∧ e < right := by
  intro e he
  rw [linspaceDrop, List.mem_map] at he
  obtain ⟨k, hk, he⟩ := he
  rw [List.mem_range] at hk
  have hn0 : (0 : ℚ) < (n : ℚ) := by exact_mod_cast Nat.pos_of_ne_zero (by omega)
  have hstep : (0 : ℚ) < (right - left) / (n : ℚ) := by
    apply div_pos
    · linarith
    · exact hn0
  constructor
  · rw [← he]
    have : (0 : ℚ) ≤ (k : ℚ) * ((right - left) / (n : ℚ)) := by positivity
    linarith
  · rw [← he]
    have hkn : (k : ℚ) < (n : ℚ) := by exact_mod_cast hk
    have h1 : (k : ℚ) * ((right - left) / (n : ℚ)) <
        (n : ℚ) * ((right - left) / (n : ℚ)) :=
      mul_lt_mul_of_pos_right hkn hstep
    have h2 : (n : ℚ) * ((right - left) / (n : ℚ)) = right - left := by
      field_simp
    linarith

theorem linspaceDrop_pairwise (left right : ℚ) (n : ℕ) (hlr : left ≤ right) :
    (linspaceDrop left right n).Pairwise (· ≤ ·) := by
  rw [linspaceDrop, List.pairwise_map]
  have hstep : (0 : ℚ) ≤ (right - left) / (n : ℚ) := by
    apply div_nonneg
    · linarith
    · positivity
  refine (List.pairwise_lt_range n).imp ?_
  intro a b hab
  have : (a : ℚ) ≤ (b : ℚ) := by exact_mod_cast Nat.le_of_lt hab
  have := mul_le_mul_of_nonneg_right this hstep
  linarith

theorem divTable_enum_facts :
    ∀ x ∈ divTable.enum, x.2.1 < x.2.2.1 ∧ 1 ≤ x.2.2.2 := by decide

theorem divTable_enum_pairwise :
    divTable.enum.Pairwise (fun a b => a.2.2.1 ≤ b.2.1) := by decide

theorem scaleNum_pos (mult : ℚ) (n : ℕ) (hm : 0 < mult) (hn : 1 ≤ n) :
    1 ≤ scaleNum mult n := by
  rw [scaleNum]
  have hpos : (0 : ℚ) < (n : ℚ) * mult := by
    apply mul_pos _ hm
    exact_mod_cast Nat.pos_of_ne_zero (by omega)
  have hceil : 0 < Int.ceil ((n : ℚ) * mult) := Int.lt_ceil.mpr (by simpa using hpos)
  omega

theorem scaledRows_facts (z dm fdm : ℚ) (hz : 0 < 1 + z) (hdm : 0 < dm)
    (hfdm : 0 < fdm) :
    ∀ row ∈ scaledRows z dm fdm, row.1 < row.2.1 ∧ 1 ≤ row.2.2 := by
  intro row hrow
  rw [scaledRows, List.mem_map] at hrow
  obtain ⟨x, hx, hrow⟩ := hrow
  obtain ⟨hlr, hn⟩ := divTable_enum_facts x hx
  rw [← hrow]
  constructor
  · exact mul_lt_mul_of_pos_left hlr hz
  · split
    · exact scaleNum_pos fdm x.2.2.2 hfdm hn
    · exact scaleNum_pos dm x.2.2.2 hdm hn

theorem scaledRows_pairwise (z dm fdm : ℚ) (hz : 0 < 1 + z) :
    (scaledRows z dm fdm).Pairwise (fun a b => a.2.1 ≤ b.1) := by
  rw [scaledRows, List.pairwise_map]
  refine divTable_enum_pairwise.imp ?_
  intro a b hab
  exact mul_le_mul_of_nonneg_left hab (le_of_lt hz)

theorem qsoEdgesAll_pairwise (z dm fdm : ℚ) (hz : 0 < 1 + z) (hdm : 0 < dm)
    (hfdm : 0 < fdm) : (qsoEdgesAll z dm fdm).Pairwise (· ≤ ·) := by
  rw [qsoEdgesAll, List.pairwise_flatten]
  constructor
  · intro blk hblk
    rw [List.mem_map] at hblk
    obtain ⟨row, hrow, hblk⟩ := hblk
    obtain ⟨hlr, _⟩ := scaledRows_facts z dm fdm hz hdm hfdm row hrow
    rw [← hblk]
    exact linspaceDrop_pairwise _ _ _ (le_of_lt hlr)
  · have hpw := (scaledRows_pairwise z dm fdm hz).imp_of_mem
      (S := fun b1 b2 => ∀ x ∈ linspaceDrop b1.1 b1.2.1 b1.2.2,
        ∀ y ∈ linspaceDrop b2.1 b2.2.1 b2.2.2, x ≤ y) ?_
    · rw [List.pairwise_map]
      exact hpw
    · intro a b ha hb hab x hx y hy
      obtain ⟨hlra, hna⟩ := scaledRows_facts z dm fdm hz hdm hfdm a ha
      obtain ⟨hlrb, hnb⟩ := scaledRows_facts z dm fdm hz hdm hfdm b hb
      have hxa := linspaceDrop_mem_bounds a.1 a.2.1 a.2.2 hna hlra x hx
      have hyb := linspaceDrop_mem_bounds b.1 b.2.1 b.2.2 hnb hlrb y hy
      linarith [hxa.2, hyb.1]

/-- C1 (amended): the clipped QSO edge sequence lies strictly inside the
observed wavelength range rather than covering it: with `searchsorted` (side
`left`) indices `i0` and `i2` of `wa[0]` and `wa[-1]`, the returned slice
`edges[i0:i2]` contains only edges `e` with `wa[0] ≤ e < wa[-1]`; in
particular the first returned edge is `≥ wa[0]` (not `≤`) and the last
returned edge is `< wa[-1]` (not `≥`), and the computed Lyman-alpha bracket
index is never used. -/
theorem C1_edges_inside_domain (wa : List ℚ) (z dm fdm : ℚ) (hz : 0 < 1 + z)
    (hdm : 0 < dm) (hfdm : 0 < fdm) :
    ∀ e ∈ make_chunks_qso wa z dm fdm, wa.headD 0 ≤ e ∧ e < wa.getLastD 0 := by
  intro e he
  have hsort := qsoEdgesAll_pairwise z dm fdm hz hdm hfdm
  rw [make_chunks_qso] at he
  constructor
  · exact drop_searchsorted_ge (wa.headD 0) (qsoEdgesAll z dm fdm) hsort e
      (List.mem_of_mem_take he)
  · rw [← List.drop_take] at he
    refine take_searchsorted_lt (wa.getLastD 0) (qsoEdgesAll z dm fdm) hsort e ?_
    exact List.mem_of_mem_drop he

unseal Rat.add Rat.mul Rat.sub Rat.inv in
/-- Counterexample for C1: for the observed domain `[600, 700]` at redshift 0
with unit multipliers, the generated edges step by 12 from 500, and the
returned slice runs from 608 to 692: its first edge `608` is greater than
`wa[0] = 600` and its last edge `692` is smaller than `wa[-1] = 700`, so the
sequence does not cover the observed range in either direction. -/
theorem C1_counterexample :
    (make_chunks_qso [600, 700] 0 1 1).head? = some 608 ∧
    (make_chunks_qso [600, 700] 0 1 1).getLast? = some 692 ∧
    ¬ ((608 : ℚ) ≤ 600) ∧ ¬ ((700 : ℚ) ≤ 692) := by
  refine ⟨by decide, by decide, by decide, by decide⟩

unseal Rat.add Rat.mul Rat.sub Rat.inv in
/-- Witness for C1 (amended): the edge `608` of the `[600, 700]` run is inside
the observed domain. -/
theorem C1_witness :
    ([600, 700] : List ℚ).headD 0 ≤ 608 ∧ (608 : ℚ) < ([600, 700] : List ℚ).getLastD 0 :=
  C1_edges_inside_domain [600, 700] 0 1 1 (by norm_num) (by norm_num) (by norm_num)
    608 (by decide)

end Continuum
